import Mathlib

/-!
Verification development for the synapseswap UTXO Merkle-snapshot module
(src/synapseswap.cpp): leaf hashing, snapshot collection, sorted Merkle
tree construction, inclusion-proof generation and verification, and
unlock-claim derivation, shallowly embedded over lists of natural-number
hashes and explicit byte-list serialization.

Conventions of the embedding:
* a uint256 value is a natural number (the null value uint256() is 0);
* a raw byte is a natural number (meaningful values are below 256);
* CAmount (int64_t) is an integer, serialized via its two's complement;
* the external leveldb store is a list of records in iteration order;
* the external wallet map is an association list in iteration order;
* external collaborators that are not part of this translation unit
  (the cryptographic hash, the signer, point lookups) are modelled from
  the spec, as marked on each such definition.
-/

namespace Synapseswap


/-- One step of the rolling byte digest: absorb one byte into the
accumulator. Digits are taken in base 257 from the range [1, 256] so that
distinct byte strings of equal length always map to distinct values. -/
def hashStep (acc byte : Nat) : Nat := acc * 257 + (byte % 256 + 1)

/-- Modelled from the spec: the host's fixed cryptographic hash H
(Hash from hash.h, outside this translation unit; the spec treats it as a
black-box cryptographic hash). It is idealized as a collision-free digest
of a byte string, the standard idealization under which the spec's
uniqueness properties are stated. -/
def hashBytes (data : List Nat) : Nat := data.foldl hashStep 1

/-- Little-endian fixed-width serialization of an unsigned integer into
the given number of bytes, as the host serializer writes uint256 (32
bytes) and fixed-width integers. -/
def serLE : Nat → Nat → List Nat
  | 0, _ => []
  | w + 1, n => n % 256 :: serLE w (n / 256)

/-- Modelled from the spec: the host's compact-size length encoding used
when serializing a script (WriteCompactSize in serialize.h, outside this
translation unit). -/
def serCompactSize (n : Nat) : List Nat :=
  if n < 253 then [n]
  else if n ≤ 65535 then 253 :: serLE 2 n
  else if n ≤ 4294967295 then 254 :: serLE 4 n
  else 255 :: serLE 8 n

/-- Serialization of a script: compact-size length followed by the raw
script bytes, as the host serializer writes a CScript. -/
def serScript (script : List Nat) : List Nat := serCompactSize script.length ++ script

/-- Serialization of a CAmount (int64_t): 8 little-endian bytes of its
two's complement representation. -/
def serAmount (v : Int) : List Nat := serLE 8 (v % (2 ^ 64 : Int)).toNat

/-- A transaction output as the coins database stores it: its value, its
locking script, and whether it is the tombstone/null marker. The marker
flag models CTxOut::IsNull() — modelled from the spec ("the record is not
a tombstone/null marker"), since the CTxOut definition lives outside this
translation unit. -/
structure CTxOut where
  nValue : Int
  scriptPubKey : List Nat
  isNull : Bool
  deriving DecidableEq, Repr

/-- A coins-database record: the (possibly pruned) outputs of one
transaction and the height of the block containing it. -/
structure CCoins where
  vout : List CTxOut
  nHeight : Int
  deriving DecidableEq, Repr

/-- Total unspent amount of a coins record: the sum of the values of its
outputs that are not null and have strictly positive value
(getUnspentAmount). -/
def getUnspentAmount (coin : CCoins) : Int :=
  coin.vout.foldl
    (fun amount txOut =>
      if txOut.isNull = false ∧ 0 < txOut.nValue then amount + txOut.nValue else amount)
    0

/-- Merkle-tree leaf hash of one output: the hash of the serialized txid,
then the serialized script, then the serialized amount, in that order
(SynapseSwap::computeHashTxOut). -/
def computeHashTxOut (txid : Nat) (txOut : CTxOut) : Nat :=
  hashBytes (serLE 32 txid ++ serScript txOut.scriptPubKey ++ serAmount txOut.nValue)

/-- Leaf hash with the spent-output check: the null value 0 for a null
(spent) output, the leaf hash otherwise
(SynapseSwap::checkedComputeHashTxOut). -/
def checkedComputeHashTxOut (txid : Nat) (txOut : CTxOut) : Nat :=
  if txOut.isNull then 0 else computeHashTxOut txid txOut

/-! The Merkle tree builder. The pairwise combining hash is the same
black-box cryptographic hash applied to the 64-byte concatenation of the
two child hashes (computeHashes(left, right) = Hash(left, right)); the
tree algorithms are stated parametrically in an arbitrary combining
function H so that every theorem below covers the host's actual hash,
with hashPair as the concrete instance used for evaluation. -/

/-- Combine two child hashes into a parent hash (computeHashes), with the
black-box hash abstracted as H. -/
def computeHashes (H : Nat → Nat → Nat) (left right : Nat) : Nat := H left right

/-- Modelled from the spec: the concrete instance of the black-box pair
hash, digesting the 64 bytes of the two serialized child hashes. -/
def hashPair (left right : Nat) : Nat := hashBytes (serLE 32 left ++ serLE 32 right)

/-- One level of the bottom-up fold (SynapseSwap::moveUp): element i of
the next level combines elements 2i and 2i+1 of the current level, with
an unpaired last element combined with itself; the level shrinks to
ceil(count / 2) elements. -/
def moveUp (H : Nat → Nat → Nat) (hashList : List Nat) : List Nat :=
  let count := hashList.length
  let halfCount := (count + 1) / 2
  (List.range halfCount).map (fun i =>
    let leftIndex := 2 * i
    let rightIndex := if leftIndex + 1 ≥ count then leftIndex else leftIndex + 1
    computeHashes H (hashList.getD leftIndex 0) (hashList.getD rightIndex 0))

/-- Helper recursive characterization of moveUp: two elements at a time. -/
def moveUpRec (H : Nat → Nat → Nat) : List Nat → List Nat
  | [] => []
  | [a] => [computeHashes H a a]
  | a :: b :: rest => computeHashes H a b :: moveUpRec H rest

/-- The while loop of SynapseSwap::computeMerkleRoot: fold levels upward
while more than one element remains. -/
def merkleFold (H : Nat → Nat → Nat) (hashList : List Nat) : List Nat :=
  if 1 < hashList.length then merkleFold H (moveUp H hashList) else hashList
termination_by hashList.length
decreasing_by
  simp only [moveUp, List.length_map, List.length_range]
  omega

/-- The root of a hash list (the list-folding part of
SynapseSwap::computeMerkleRoot): fold until at most one element remains,
then return the null value for an empty list and the front element
otherwise. -/
def computeMerkleRootOf (H : Nat → Nat → Nat) (hashList : List Nat) : Nat :=
  match merkleFold H hashList with
  | [] => 0
  | h :: _ => h

/-- Modelled from the spec (the second definition for the refinement
claim C5, following the spec's words): one level replaces a list of
length n by ceil(n / 2) elements, element i being H(old[2i], old[2i+1])
when 2i+1 < n and H(old[2i], old[2i]) when the last element is
unmatched. -/
def specLevel (H : Nat → Nat → Nat) (level : List Nat) : List Nat :=
  (List.range ((level.length + 1) / 2)).map (fun i =>
    if 2 * i + 1 < level.length then H (level.getD (2 * i) 0) (level.getD (2 * i + 1) 0)
    else H (level.getD (2 * i) 0) (level.getD (2 * i) 0))

/-- Modelled from the spec (the second definition for the refinement
claim C5): the root is the designated zero/null value for an empty list,
and otherwise the single element that remains after repeatedly applying
specLevel. -/
def specRoot (H : Nat → Nat → Nat) (level : List Nat) : Nat :=
  if h0 : level = [] then 0
  else if level.length = 1 then level.getD 0 0
  else specRoot H (specLevel H level)
termination_by level.length
decreasing_by
  simp only [specLevel, List.length_map, List.length_range]
  have : level.length ≠ 0 := fun hn => h0 (List.eq_nil_of_length_eq_zero hn)
  omega

/-- Sorting of the collected leaf list (the std::sort call in
SynapseSwap::buildHashList): ascending order. -/
def sortHashes (hashList : List Nat) : List Nat := hashList.insertionSort (· ≤ ·)

/-! The inclusion-proof generator and verifier. -/

/-- One node of an inclusion proof (UtxoProofNode): the sibling hash and
whether the sibling sits to the left of the current node. -/
structure UtxoProofNode where
  left : Bool
  hash : Nat
  deriving DecidableEq, Repr

/-- The sibling hash of the node at the given index of the current level
(SynapseSwap::getProofHash): for an even index the next element, or the
element itself when unmatched at the end; for an odd index the previous
element. -/
def getProofHash (hashList : List Nat) (index : Nat) : Nat :=
  if index % 2 = 0 then
    if index + 1 ≥ hashList.length then hashList.getD index 0
    else hashList.getD (index + 1) 0
  else hashList.getD (index - 1) 0

/-- The proof-building loop of SynapseSwap::getProof, operating on the
current level and the index of the tracked node: record the sibling and
its side, fold the level up, and continue with the halved index until the
folded level has a single element. The source exits only when the folded
level has exactly one element; it reaches this loop only with a nonempty
level (a found index), for which the folded level is never empty, so the
guard used here agrees with the source on every reachable input. -/
def getProofLoop (H : Nat → Nat → Nat) (hashList : List Nat) (index : Nat) :
    List UtxoProofNode :=
  let node : UtxoProofNode := ⟨index % 2 == 1, getProofHash hashList index⟩
  if h : 1 < (moveUp H hashList).length then
    node :: getProofLoop H (moveUp H hashList) (index / 2)
  else [node]
termination_by hashList.length
decreasing_by
  simp only [moveUp, List.length_map, List.length_range] at h ⊢
  omega

/-- The proof verifier (SynapseSwap::computeProofRoot): fold the proof
nodes over the running hash, placing the sibling on the recorded side. -/
def computeProofRoot (H : Nat → Nat → Nat) (hash : Nat) (proof : List UtxoProofNode) : Nat :=
  proof.foldl
    (fun h node =>
      if node.left then computeHashes H node.hash h else computeHashes H h node.hash)
    hash

/-! The snapshot collector: the UTXO store iterator and the hash-list
builder. The external leveldb store is modelled as the list of its
records in iteration order; each raw record carries its key length, its
one-byte type tag, the transaction id from the key, and the decoded coins
value. -/

/-- Only UTXOs in the blocks between the two values are included
(maxUtxoBlockHeight). -/
def maxUtxoBlockHeight : Int := 999999999

/-- Only UTXOs in the blocks between the two values are included
(minUtxoBlockHeight). -/
def minUtxoBlockHeight : Int := 0

/-- One raw record of the external store: the length of its raw key, the
one-byte record tag, the 256-bit transaction id encoded in the key, and
the decoded coins value (meaningful only for coin records). -/
structure DbEntry where
  keyLen : Nat
  tag : Nat
  txid : Nat
  coins : CCoins
  deriving DecidableEq, Repr

/-- One item yielded by the iterator (UtxoIteratorItem). -/
structure UtxoIteratorItem where
  txid : Nat
  coins : CCoins
  deriving DecidableEq, Repr

/-- An iterator item is valid when its txid is not the null value
(UtxoIteratorItem::isValid); the default-constructed end-of-scan item has
the null txid. -/
def UtxoIteratorItem.isValid (item : UtxoIteratorItem) : Bool := !(item.txid == 0)

/-- The record tag of coin records: the byte value of the character c. -/
def coinRecordTag : Nat := 99

/-- The stream of items produced by repeated UtxoIterator::next calls
over the remaining store records. The boolean argument models the
position of the cursor relative to the pending for-loop increment: after
a well-formed coin record fails the amount or height filter, the source
has already advanced past the record (the explicit Next call before the
filters) and the continue statement then runs the for-loop increment as
well, so the following record is dropped unexamined — that pending drop
is the true state of the flag. A record with a key length other than 33
or a tag other than the coin tag is skipped with a single advance, and a
record passing all filters is yielded with the cursor already past it. -/
def utxoScan (minHeight maxHeight : Int) : Bool → List DbEntry → List UtxoIteratorItem
  | true, [] => []
  | true, _ :: rest => utxoScan minHeight maxHeight false rest
  | false, [] => []
  | false, entry :: rest =>
    if entry.keyLen ≠ 33 then utxoScan minHeight maxHeight false rest
    else if entry.tag ≠ coinRecordTag then utxoScan minHeight maxHeight false rest
    else if getUnspentAmount entry.coins ≤ 0 then utxoScan minHeight maxHeight true rest
    else if entry.coins.nHeight < minHeight ∨ entry.coins.nHeight > maxHeight then
      utxoScan minHeight maxHeight true rest
    else ⟨entry.txid, entry.coins⟩ :: utxoScan minHeight maxHeight false rest

/-- The items the collecting loop of SynapseSwap::buildHashList consumes:
the iterator's stream up to the first invalid item, at which the loop
stops. -/
def scannedItems (minHeight maxHeight : Int) (db : List DbEntry) : List UtxoIteratorItem :=
  (utxoScan minHeight maxHeight false db).takeWhile (fun item => item.isValid)

/-- The leaf hashes one scanned item contributes to the hash list: the
checked leaf hash of each of its outputs, keeping only non-null hashes
(the inner loop of SynapseSwap::buildHashList). -/
def itemLeaves (item : UtxoIteratorItem) : List Nat :=
  (item.coins.vout.map (fun txOut => checkedComputeHashTxOut item.txid txOut)).filter
    (fun h => !(h == 0))

/-- The sorted snapshot hash list (SynapseSwap::buildHashList): collect
the leaves of every scanned item, then sort ascending. -/
def buildHashList (minHeight maxHeight : Int) (db : List DbEntry) : List Nat :=
  sortHashes ((scannedItems minHeight maxHeight db).flatMap itemLeaves)

/-- The index-to-prove computation of SynapseSwap::buildHashList: the
position of the first occurrence of the hash in the sorted list, or -1
when the hash is absent (the std::find call translated to a position). -/
def findProofIndex (hashList : List Nat) (hashToProof : Nat) : Int :=
  if hashToProof ∈ hashList then (hashList.indexOf hashToProof : Int) else -1

/-- The full proof generator (SynapseSwap::getProof): rebuild the sorted
hash list, locate the target hash, return the empty proof when it is
absent, and otherwise run the proof-building loop from its index. -/
def getProof (H : Nat → Nat → Nat) (minHeight maxHeight : Int) (db : List DbEntry)
    (hash : Nat) : List UtxoProofNode :=
  let hashList := buildHashList minHeight maxHeight db
  let index := findProofIndex hashList hash
  if index < 0 then []
  else getProofLoop H hashList index.toNat

/-- The full root computation (SynapseSwap::computeMerkleRoot): the root
of the snapshot's sorted hash list. -/
def computeMerkleRoot (H : Nat → Nat → Nat) (minHeight maxHeight : Int)
    (db : List DbEntry) : Nat :=
  computeMerkleRootOf H (buildHashList minHeight maxHeight db)

/-! Concrete store records used to exercise the scan. -/

/-- A coins record whose single output has zero value: its total unspent
amount is zero, so the iterator's amount filter rejects it. -/
def coinsZero : CCoins := ⟨[⟨0, [7], false⟩], 10⟩

/-- A coins record with one spendable output of value 5 at height 10,
inside the default window. -/
def coinsGood : CCoins := ⟨[⟨5, [7], false⟩], 10⟩

/-- A well-formed coin record the amount filter rejects. -/
def entryRejected : DbEntry := ⟨33, coinRecordTag, 1, coinsZero⟩

/-- A well-formed coin record that passes every filter. -/
def entryGood : DbEntry := ⟨33, coinRecordTag, 2, coinsGood⟩

/-! The unlock-claim builder. -/

/-- A wallet transaction, reduced to what the claim builder reads: its
outputs. Its hash (CWalletTx::GetHash) equals its key in the wallet map,
so the map key stands for the hash below. -/
structure CWalletTx where
  vout : List CTxOut
  deriving DecidableEq, Repr

/-- One unlock claim (UnlockItem): the spent output's identity and
economic data together with the authorization script produced by
signing. -/
structure UnlockItem where
  txid : Nat
  out : Nat
  scriptPubKey : List Nat
  amount : Int
  redeemScript : List Nat
  deriving DecidableEq, Repr

/-- Modelled from the spec: SynapseSwap::signTxOut builds a synthetic
single-input spend of the output and asks the external signing
collaborator (ProduceSignature, outside this translation unit) for an
authorization script; on failure the SignatureData it returns stays
default-constructed, i.e. the empty script — the source takes no other
action on the failing branch. The signer is abstracted as a function from
the spent transaction's hash and output index to an optional
authorization script. -/
def signTxOut (signer : Nat → Nat → Option (List Nat)) (nOut : Nat) (pcoinHash : Nat) :
    List Nat :=
  match signer pcoinHash nOut with
  | some sig => sig
  | none => []

/-- SynapseSwap::getUnlockItems: walk the wallet map in iteration order;
for every wallet transaction whose coins record is still in the UTXO
store, emit one UnlockItem per non-null output (the output counter runs
over all outputs, null ones included), carrying the signing result as the
redeem script. The point lookup into the store (getUtxoCoins, a read of
the external store) is abstracted as a function from txid to an optional
coins record. -/
def getUnlockItems (signer : Nat → Nat → Option (List Nat))
    (lookupCoins : Nat → Option CCoins) (wallet : List (Nat × CWalletTx)) :
    List UnlockItem :=
  wallet.flatMap (fun entry =>
    match lookupCoins entry.1 with
    | none => []
    | some coins =>
      coins.vout.enum.filterMap (fun outPair =>
        if outPair.2.isNull then none
        else some { txid := entry.1, out := outPair.1,
                    scriptPubKey := outPair.2.scriptPubKey,
                    amount := outPair.2.nValue,
                    redeemScript := signTxOut signer outPair.1 entry.1 }))

/-- A signing collaborator that fails on every output. -/
def failingSigner : Nat → Nat → Option (List Nat) := fun _ _ => none

/-- A coins record for the wallet demo: one spendable output. -/
def walletCoins : CCoins := ⟨[⟨5, [170], false⟩], 10⟩

/-- A one-transaction wallet owning that output. -/
def demoWallet : List (Nat × CWalletTx) := [(7, ⟨[⟨5, [170], false⟩]⟩)]

/-- A store lookup that still has the wallet transaction's coins. -/
def demoLookup : Nat → Option CCoins := fun txid => if txid = 7 then some walletCoins else none

/-! Theorems. -/

/-! Bounds for the rolling digest: a fold from accumulator a over n bytes
lands in the interval from a * 257 ^ n (inclusive) to (a + 1) * 257 ^ n
(exclusive). These intervals are disjoint for distinct accumulators, which
gives injectivity of the digest in the accumulator, hence in any
fixed-width field of the preimage. -/

theorem foldl_hashStep_ge : ∀ (l : List Nat) (a : Nat), a * 257 ^ l.length ≤ l.foldl hashStep a
  | [], a => by simp
  | b :: t, a => by
    have hstep : a * 257 ≤ hashStep a b := by unfold hashStep; omega
    calc a * 257 ^ (b :: t).length = a * 257 * 257 ^ t.length := by
          simp [List.length_cons, pow_succ]; ring
      _ ≤ hashStep a b * 257 ^ t.length := Nat.mul_le_mul_right _ hstep
      _ ≤ t.foldl hashStep (hashStep a b) := foldl_hashStep_ge t (hashStep a b)
      _ = (b :: t).foldl hashStep a := rfl

theorem foldl_hashStep_lt : ∀ (l : List Nat) (a : Nat), l.foldl hashStep a < (a + 1) * 257 ^ l.length
  | [], a => by simp
  | b :: t, a => by
    have hstep : hashStep a b + 1 ≤ (a + 1) * 257 := by
      unfold hashStep
      have : b % 256 < 256 := Nat.mod_lt _ (by omega)
      omega
    calc (b :: t).foldl hashStep a = t.foldl hashStep (hashStep a b) := rfl
      _ < (hashStep a b + 1) * 257 ^ t.length := foldl_hashStep_lt t (hashStep a b)
      _ ≤ (a + 1) * 257 * 257 ^ t.length := Nat.mul_le_mul_right _ hstep
      _ = (a + 1) * 257 ^ (b :: t).length := by
          simp [List.length_cons, pow_succ]; ring

theorem foldl_hashStep_lt_of_acc_lt (l₁ l₂ : List Nat) (hlen : l₁.length = l₂.length)
    {a b : Nat} (hab : a < b) : l₁.foldl hashStep a < l₂.foldl hashStep b :=
  calc l₁.foldl hashStep a < (a + 1) * 257 ^ l₁.length := foldl_hashStep_lt l₁ a
    _ ≤ b * 257 ^ l₂.length := by
        rw [hlen]; exact Nat.mul_le_mul_right _ (by omega)
    _ ≤ l₂.foldl hashStep b := foldl_hashStep_ge l₂ b

theorem foldl_hashStep_acc_ne (l₁ l₂ : List Nat) (hlen : l₁.length = l₂.length)
    {a b : Nat} (hab : a ≠ b) : l₁.foldl hashStep a ≠ l₂.foldl hashStep b := by
  rcases Nat.lt_or_ge a b with h | h
  · exact Nat.ne_of_lt (foldl_hashStep_lt_of_acc_lt l₁ l₂ hlen h)
  · have hba : b < a := by omega
    exact (Nat.ne_of_lt (foldl_hashStep_lt_of_acc_lt l₂ l₁ hlen.symm hba)).symm

theorem foldl_hashStep_acc_inj (l : List Nat) {a b : Nat} (hab : a ≠ b) :
    l.foldl hashStep a ≠ l.foldl hashStep b :=
  foldl_hashStep_acc_ne l l rfl hab

theorem serLE_length : ∀ (w n : Nat), (serLE w n).length = w
  | 0, _ => rfl
  | w + 1, n => by simp [serLE, serLE_length w]

theorem serLE_foldl_inj : ∀ (w : Nat) {m n : Nat} (a : Nat), m < 256 ^ w → n < 256 ^ w →
    (serLE w m).foldl hashStep a = (serLE w n).foldl hashStep a → m = n
  | 0, m, n, _, hm, hn, _ => by
    simp [pow_zero] at hm hn; omega
  | w + 1, m, n, a, hm, hn, heq => by
    have hmlt : m % 256 < 256 := Nat.mod_lt _ (by omega)
    have hnlt : n % 256 < 256 := Nat.mod_lt _ (by omega)
    simp only [serLE, List.foldl_cons] at heq
    by_cases hd : m % 256 = n % 256
    · rw [hd] at heq
      have hm2 : m / 256 < 256 ^ w := by
        rw [Nat.div_lt_iff_lt_mul (by omega)]
        calc m < 256 ^ (w + 1) := hm
          _ = 256 ^ w * 256 := by rw [pow_succ]
      have hn2 : n / 256 < 256 ^ w := by
        rw [Nat.div_lt_iff_lt_mul (by omega)]
        calc n < 256 ^ (w + 1) := hn
          _ = 256 ^ w * 256 := by rw [pow_succ]
      have := serLE_foldl_inj w (hashStep a (n % 256)) hm2 hn2 heq
      omega
    · exfalso
      have hne : hashStep a (m % 256) ≠ hashStep a (n % 256) := by
        unfold hashStep
        rw [Nat.mod_eq_of_lt hmlt, Nat.mod_eq_of_lt hnlt]
        omega
      exact foldl_hashStep_acc_ne _ _ (by rw [serLE_length, serLE_length]) hne heq

theorem hashBytes_pos (data : List Nat) : 0 < hashBytes data := by
  have h := foldl_hashStep_ge data 1
  have hp : 0 < 257 ^ data.length := Nat.pos_pow_of_pos _ (by omega)
  unfold hashBytes
  omega

theorem computeHashTxOut_ne_zero (txid : Nat) (txOut : CTxOut) :
    computeHashTxOut txid txOut ≠ 0 :=
  Nat.pos_iff_ne_zero.mp (hashBytes_pos _)

set_option maxRecDepth 4000 in
/-- Claim C7: two outputs with identical script and identical amount but
different txid yield different leaf hashes, because the txid is serialized
first and fixed-width in the hash preimage, so the two preimage byte
strings are distinct. -/
theorem computeHashTxOut_txid_injective (t₁ t₂ : Nat) (h₁ : t₁ < 2 ^ 256) (h₂ : t₂ < 2 ^ 256)
    (hne : t₁ ≠ t₂) (txOut : CTxOut) :
    computeHashTxOut t₁ txOut ≠ computeHashTxOut t₂ txOut := by
  unfold computeHashTxOut hashBytes
  simp only [List.append_assoc, List.foldl_append]
  have hpow : (2 : Nat) ^ 256 = 256 ^ 32 := by norm_num
  have h₁p : t₁ < 256 ^ 32 := by calc t₁ < 2 ^ 256 := h₁
                                    _ = 256 ^ 32 := hpow
  have h₂p : t₂ < 256 ^ 32 := by calc t₂ < 2 ^ 256 := h₂
                                    _ = 256 ^ 32 := hpow
  have haccne : (serLE 32 t₁).foldl hashStep 1 ≠ (serLE 32 t₂).foldl hashStep 1 := by
    intro hacc
    exact hne (serLE_foldl_inj 32 1 h₁p h₂p hacc)
  exact foldl_hashStep_acc_inj _ (foldl_hashStep_acc_inj _ haccne)

set_option maxRecDepth 4000 in
/-- Witness for C7 at a concrete input: txids 0 and 1 with the same empty
script and zero amount hash to different leaves. -/
theorem computeHashTxOut_txid_injective_witness :
    (0 : Nat) < 2 ^ 256 ∧ (1 : Nat) < 2 ^ 256 ∧ (0 : Nat) ≠ 1 ∧
      computeHashTxOut 0 ⟨0, [], false⟩ ≠ computeHashTxOut 1 ⟨0, [], false⟩ :=
  ⟨by norm_num, by norm_num, by decide,
    computeHashTxOut_txid_injective 0 1 (by norm_num) (by norm_num) (by decide) _⟩

set_option maxRecDepth 4000 in
/-- Counterexample to claim C4 as stated: a non-null output with amount 0
does not map to the absent sentinel — checkedComputeHashTxOut tests only
the null marker, not the amount, so the claimed equivalence fails at this
output. -/
theorem checkedComputeHashTxOut_zero_amount_not_sentinel :
    ¬ (checkedComputeHashTxOut 0 ⟨0, [], false⟩ = 0 ↔
        ((⟨0, [], false⟩ : CTxOut).isNull = true ∨ (⟨0, [], false⟩ : CTxOut).nValue ≤ 0)) := by
  decide

/-- Claim C4 (amended): checkedComputeHashTxOut returns the null sentinel
exactly when the output is the null/tombstone marker, and the real leaf
hash (never the sentinel) otherwise; the amount is not consulted. -/
theorem checkedComputeHashTxOut_sentinel_iff (txid : Nat) (txOut : CTxOut) :
    checkedComputeHashTxOut txid txOut = 0 ↔ txOut.isNull = true := by
  unfold checkedComputeHashTxOut
  by_cases hn : txOut.isNull
  · simp [hn]
  · simp [hn, computeHashTxOut_ne_zero txid txOut]

theorem moveUp_length (H : Nat → Nat → Nat) (hashList : List Nat) :
    (moveUp H hashList).length = (hashList.length + 1) / 2 := by
  simp [moveUp]

theorem moveUp_cons_cons (H : Nat → Nat → Nat) (a b : Nat) (rest : List Nat) :
    moveUp H (a :: b :: rest) = computeHashes H a b :: moveUp H rest := by
  unfold moveUp
  simp only
  have hlen : ((a :: b :: rest).length + 1) / 2 = (rest.length + 1) / 2 + 1 := by
    simp [List.length_cons]; omega
  rw [hlen, List.range_succ_eq_map, List.map_cons, List.map_map]
  congr 1
  apply List.map_congr_left
  intro i hi
  simp only [Function.comp_apply, Nat.succ_eq_add_one]
  have hget1 : (a :: b :: rest).getD (2 * (i + 1)) 0 = rest.getD (2 * i) 0 := by
    rw [show 2 * (i + 1) = 2 * i + 1 + 1 by ring, List.getD_cons_succ, List.getD_cons_succ]
  have hget2 : (a :: b :: rest).getD (2 * (i + 1) + 1) 0 = rest.getD (2 * i + 1) 0 := by
    rw [show 2 * (i + 1) + 1 = (2 * i + 1) + 1 + 1 by ring,
      List.getD_cons_succ, List.getD_cons_succ]
  by_cases hc : 2 * i + 1 ≥ rest.length
  · have hc2 : 2 * (i + 1) + 1 ≥ (a :: b :: rest).length := by
      simp only [List.length_cons]; omega
    rw [if_pos hc, if_pos hc2, hget1]
  · have hc2 : ¬ (2 * (i + 1) + 1 ≥ (a :: b :: rest).length) := by
      simp only [List.length_cons]; omega
    rw [if_neg hc, if_neg hc2, hget1, hget2]

theorem moveUp_eq_moveUpRec (H : Nat → Nat → Nat) : ∀ hashList : List Nat,
    moveUp H hashList = moveUpRec H hashList
  | [] => rfl
  | [a] => by
    unfold moveUp moveUpRec
    simp [List.range_succ, List.getD]
  | a :: b :: rest =>
    (moveUp_cons_cons H a b rest).trans
      (by rw [moveUp_eq_moveUpRec H rest]; rfl)

theorem specLevel_length (H : Nat → Nat → Nat) (level : List Nat) :
    (specLevel H level).length = (level.length + 1) / 2 := by
  simp [specLevel]

theorem specLevel_eq_moveUp (H : Nat → Nat → Nat) (level : List Nat) :
    specLevel H level = moveUp H level := by
  unfold specLevel moveUp
  simp only
  apply List.map_congr_left
  intro i hi
  by_cases hc : 2 * i + 1 < level.length
  · have : ¬ (2 * i + 1 ≥ level.length) := by omega
    simp [hc, this, computeHashes]
  · have : 2 * i + 1 ≥ level.length := by omega
    simp [hc, this, computeHashes]

theorem merkleFold_of_le_one (H : Nat → Nat → Nat) (hashList : List Nat)
    (h : hashList.length ≤ 1) : merkleFold H hashList = hashList := by
  unfold merkleFold
  simp [Nat.not_lt_of_le h, show ¬ 1 < hashList.length by omega]

theorem merkleFold_step (H : Nat → Nat → Nat) (hashList : List Nat)
    (h : 1 < hashList.length) : merkleFold H hashList = merkleFold H (moveUp H hashList) := by
  conv_lhs => unfold merkleFold
  simp [h]

theorem computeMerkleRootOf_step (H : Nat → Nat → Nat) (hashList : List Nat)
    (h : 1 < hashList.length) :
    computeMerkleRootOf H hashList = computeMerkleRootOf H (moveUp H hashList) := by
  unfold computeMerkleRootOf
  rw [merkleFold_step H hashList h]

theorem computeMerkleRootOf_single (H : Nat → Nat → Nat) (hashList : List Nat)
    (h : hashList.length = 1) : computeMerkleRootOf H hashList = hashList.getD 0 0 := by
  unfold computeMerkleRootOf
  rw [merkleFold_of_le_one H hashList (by omega)]
  match hashList, h with
  | [a], _ => rfl

/-- Claim C5: the source root computation (the moveUp loop of
computeMerkleRoot, with the empty list mapped to the null root) computes
exactly the fold described by the spec: sorted pairwise fold with
self-pairing on the odd tail. -/
theorem computeMerkleRoot_matches_spec (H : Nat → Nat → Nat) (hashList : List Nat) :
    computeMerkleRootOf H hashList = specRoot H hashList := by
  unfold specRoot
  by_cases h0 : hashList = []
  · subst h0
    simp [computeMerkleRootOf, merkleFold]
  · simp only [h0, dite_false]
    by_cases h1 : hashList.length = 1
    · simp [h1, computeMerkleRootOf_single H hashList h1]
    · have hgt : 1 < hashList.length := by
        have : hashList.length ≠ 0 := fun hn => h0 (List.eq_nil_of_length_eq_zero hn)
        omega
      simp only [h1, if_false]
      rw [computeMerkleRootOf_step H hashList hgt, specLevel_eq_moveUp,
        computeMerkleRoot_matches_spec H (moveUp H hashList)]
termination_by hashList.length
decreasing_by
  simp only [moveUp_length]
  omega

/-- Claim C6: for leaf collections that are permutations of each other
(the store scan producing the same leaves in any order), the root over
the sorted hash list is identical — the pre-sort makes the root a
function of the multiset of leaves only. -/
theorem sorted_root_perm_invariant (H : Nat → Nat → Nat) (leaves₁ leaves₂ : List Nat)
    (hne : leaves₁ ≠ []) (hperm : leaves₁.Perm leaves₂) :
    computeMerkleRootOf H (sortHashes leaves₁) = computeMerkleRootOf H (sortHashes leaves₂) := by
  have hsort : sortHashes leaves₁ = sortHashes leaves₂ := by
    apply List.eq_of_perm_of_sorted
      (((List.perm_insertionSort _ leaves₁).trans hperm).trans
        (List.perm_insertionSort _ leaves₂).symm)
      (List.sorted_insertionSort _ leaves₁) (List.sorted_insertionSort _ leaves₂)
  rw [hsort]

/-- Witness for C6 at a concrete input: the lists [2, 1] and [1, 2] have
the same sorted root. -/
theorem sorted_root_perm_invariant_witness :
    ([2, 1] : List Nat) ≠ [] ∧ ([2, 1] : List Nat).Perm [1, 2] ∧
      computeMerkleRootOf hashPair (sortHashes [2, 1]) =
        computeMerkleRootOf hashPair (sortHashes [1, 2]) :=
  ⟨by decide, by decide, sorted_root_perm_invariant hashPair [2, 1] [1, 2] (by decide) (by decide)⟩

theorem moveUp_getD (H : Nat → Nat → Nat) (hashList : List Nat) (j : Nat)
    (hj : j < (hashList.length + 1) / 2) :
    (moveUp H hashList).getD j 0 =
      computeHashes H (hashList.getD (2 * j) 0)
        (hashList.getD (if 2 * j + 1 ≥ hashList.length then 2 * j else 2 * j + 1) 0) := by
  unfold moveUp
  simp only
  rw [List.getD_eq_getElem?_getD, List.getElem?_map, List.getElem?_range hj]
  simp

/-- The verifier's single step on the node recorded at an index equals
the element at the halved index of the folded level. -/
theorem proofStep_eq_moveUp_getD (H : Nat → Nat → Nat) (hashList : List Nat) (index : Nat)
    (hi : index < hashList.length) :
    (if (index % 2 == 1) = true then
        computeHashes H (getProofHash hashList index) (hashList.getD index 0)
      else computeHashes H (hashList.getD index 0) (getProofHash hashList index)) =
      (moveUp H hashList).getD (index / 2) 0 := by
  rw [moveUp_getD H hashList (index / 2) (by omega)]
  unfold getProofHash
  by_cases hpar : index % 2 = 0
  · have hbeq : (index % 2 == 1) = false := by simp [hpar]
    have h2 : 2 * (index / 2) = index := by omega
    rw [hbeq, h2, if_pos hpar]
    by_cases hend : index + 1 ≥ hashList.length
    · rw [if_pos hend, if_pos hend]
      simp
    · rw [if_neg hend, if_neg hend]
      simp
  · have hodd : index % 2 = 1 := by omega
    have hbeq : (index % 2 == 1) = true := by simp [hodd]
    have h2 : 2 * (index / 2) = index - 1 := by omega
    have h3 : 2 * (index / 2) + 1 = index := by omega
    have hend : ¬ (2 * (index / 2) + 1 ≥ hashList.length) := by omega
    rw [hbeq, if_neg hpar, if_neg hend, h2]
    have h4 : index - 1 + 1 = index := by omega
    rw [h4]
    simp

set_option maxRecDepth 10000 in
/-- Counterexample to claim C1 as stated: on a one-element hash list the
generated proof pairs the single leaf with itself, so the verifier
returns H(leaf, leaf) while the tree builder returns the leaf itself, and
the two differ at the concrete instance below. -/
theorem proofRoot_singleton_mismatch :
    computeProofRoot hashPair (([5] : List Nat).getD 0 0) (getProofLoop hashPair [5] 0) ≠
      computeMerkleRootOf hashPair [5] := by
  have hproof : getProofLoop hashPair [5] 0 = [⟨false, 5⟩] := by
    unfold getProofLoop
    decide
  rw [hproof, computeMerkleRootOf_single hashPair [5] rfl]
  decide

/-- Claim C1 (amended): for every hash list with at least two leaves and
every valid target index, recomputing the root from the indexed leaf and
the generated proof yields exactly the root of the tree builder. On a
one-element list the two sides differ (see the counterexample), so the
one-element case is excluded. -/
theorem proofRoot_matches_merkleRoot (H : Nat → Nat → Nat) (hashList : List Nat) (index : Nat)
    (hlen : 2 ≤ hashList.length) (hidx : index < hashList.length) :
    computeProofRoot H (hashList.getD index 0) (getProofLoop H hashList index) =
      computeMerkleRootOf H hashList := by
  unfold getProofLoop
  simp only
  by_cases hb : 1 < (moveUp H hashList).length
  · rw [dif_pos hb]
    have hstep := proofStep_eq_moveUp_getD H hashList index hidx
    have hrec := proofRoot_matches_merkleRoot H (moveUp H hashList) (index / 2)
      (by omega) (by rw [moveUp_length]; omega)
    calc computeProofRoot H (hashList.getD index 0)
          (⟨index % 2 == 1, getProofHash hashList index⟩ ::
            getProofLoop H (moveUp H hashList) (index / 2))
        = computeProofRoot H ((moveUp H hashList).getD (index / 2) 0)
            (getProofLoop H (moveUp H hashList) (index / 2)) := by
          unfold computeProofRoot
          rw [List.foldl_cons, ← hstep]
      _ = computeMerkleRootOf H (moveUp H hashList) := hrec
      _ = computeMerkleRootOf H hashList :=
          (computeMerkleRootOf_step H hashList (by omega)).symm
  · rw [dif_neg hb]
    rw [moveUp_length] at hb
    have hn2 : hashList.length = 2 := by omega
    have hi2 : index / 2 = 0 := by omega
    have hstep := proofStep_eq_moveUp_getD H hashList index hidx
    calc computeProofRoot H (hashList.getD index 0)
          [⟨index % 2 == 1, getProofHash hashList index⟩]
        = (moveUp H hashList).getD (index / 2) 0 := by
          unfold computeProofRoot
          rw [List.foldl_cons, ← hstep]
          rfl
      _ = (moveUp H hashList).getD 0 0 := by rw [hi2]
      _ = computeMerkleRootOf H (moveUp H hashList) := by
          rw [computeMerkleRootOf_single H (moveUp H hashList) (by rw [moveUp_length]; omega)]
      _ = computeMerkleRootOf H hashList :=
          (computeMerkleRootOf_step H hashList (by omega)).symm
termination_by hashList.length
decreasing_by
  rw [moveUp_length]
  omega

set_option maxRecDepth 10000 in
/-- Witness for the amended C1 at a concrete input: the third leaf of a
three-element list verifies against the builder's root. -/
theorem proofRoot_matches_merkleRoot_witness :
    2 ≤ ([1, 2, 3] : List Nat).length ∧ 2 < ([1, 2, 3] : List Nat).length ∧
      computeProofRoot hashPair (([1, 2, 3] : List Nat).getD 2 0)
          (getProofLoop hashPair [1, 2, 3] 2) =
        computeMerkleRootOf hashPair [1, 2, 3] :=
  ⟨by decide, by decide, proofRoot_matches_merkleRoot hashPair [1, 2, 3] 2 (by decide) (by decide)⟩

/-- Every item the iterator yields passed both filters: positive total
unspent amount and block height inside the inclusive window. -/
theorem utxoScan_mem_filters (minHeight maxHeight : Int) :
    ∀ (skip : Bool) (db : List DbEntry) (item : UtxoIteratorItem),
      item ∈ utxoScan minHeight maxHeight skip db →
      0 < getUnspentAmount item.coins ∧ minHeight ≤ item.coins.nHeight ∧
        item.coins.nHeight ≤ maxHeight
  | true, [], item, hmem => by simp [utxoScan] at hmem
  | true, e :: rest, item, hmem => by
    rw [utxoScan] at hmem
    exact utxoScan_mem_filters minHeight maxHeight false rest item hmem
  | false, [], item, hmem => by simp [utxoScan] at hmem
  | false, e :: rest, item, hmem => by
    rw [utxoScan] at hmem
    by_cases h1 : e.keyLen ≠ 33
    · rw [if_pos h1] at hmem
      exact utxoScan_mem_filters minHeight maxHeight false rest item hmem
    · rw [if_neg h1] at hmem
      by_cases h2 : e.tag ≠ coinRecordTag
      · rw [if_pos h2] at hmem
        exact utxoScan_mem_filters minHeight maxHeight false rest item hmem
      · rw [if_neg h2] at hmem
        by_cases h3 : getUnspentAmount e.coins ≤ 0
        · rw [if_pos h3] at hmem
          exact utxoScan_mem_filters minHeight maxHeight true rest item hmem
        · rw [if_neg h3] at hmem
          by_cases h4 : e.coins.nHeight < minHeight ∨ e.coins.nHeight > maxHeight
          · rw [if_pos h4] at hmem
            exact utxoScan_mem_filters minHeight maxHeight true rest item hmem
          · rw [if_neg h4] at hmem
            rcases List.mem_cons.mp hmem with heq | htail
            · subst heq
              push_neg at h4
              dsimp only
              exact ⟨by omega, by omega, by omega⟩
            · exact utxoScan_mem_filters minHeight maxHeight false rest item htail

/-- Claim C8: every leaf of the snapshot hash list comes from a scanned
record that passed both filters — positive total unspent amount and
block height inside the inclusive window — applied before any of the
record's outputs contributed leaves; a record failing either filter never
contributes a leaf. -/
theorem buildHashList_filters (minHeight maxHeight : Int) (db : List DbEntry) (h : Nat)
    (hmem : h ∈ buildHashList minHeight maxHeight db) :
    ∃ item ∈ scannedItems minHeight maxHeight db,
      0 < getUnspentAmount item.coins ∧ minHeight ≤ item.coins.nHeight ∧
        item.coins.nHeight ≤ maxHeight ∧ h ∈ itemLeaves item := by
  unfold buildHashList sortHashes at hmem
  rw [List.mem_insertionSort] at hmem
  rcases List.mem_flatMap.mp hmem with ⟨item, hitem, hleaf⟩
  have hstream : item ∈ utxoScan minHeight maxHeight false db :=
    (List.takeWhile_sublist _).mem hitem
  have hf := utxoScan_mem_filters minHeight maxHeight false db item hstream
  exact ⟨item, hitem, hf.1, hf.2.1, hf.2.2, hleaf⟩

/-- Claim C10: the null sentinel never appears in a snapshot hash list —
every collected leaf is non-null, because the builder keeps exactly the
non-sentinel hashes. -/
theorem buildHashList_no_sentinel (minHeight maxHeight : Int) (db : List DbEntry) (h : Nat)
    (hmem : h ∈ buildHashList minHeight maxHeight db) : h ≠ 0 := by
  unfold buildHashList sortHashes at hmem
  rw [List.mem_insertionSort] at hmem
  rcases List.mem_flatMap.mp hmem with ⟨item, _, hleaf⟩
  unfold itemLeaves at hleaf
  rcases (List.mem_filter.mp hleaf) with ⟨_, hpred⟩
  simpa using hpred

theorem getProofLoop_ne_nil (H : Nat → Nat → Nat) (hashList : List Nat) (index : Nat) :
    getProofLoop H hashList index ≠ [] := by
  unfold getProofLoop
  simp only
  split <;> simp

/-- Claim C9: the proof generator returns the empty proof exactly when
the target hash is absent from the snapshot's sorted hash list (in
particular always on an empty snapshot); a present hash always receives a
non-empty proof. -/
theorem getProof_empty_iff_absent (H : Nat → Nat → Nat) (minHeight maxHeight : Int)
    (db : List DbEntry) (hash : Nat) :
    getProof H minHeight maxHeight db hash = [] ↔
      hash ∉ buildHashList minHeight maxHeight db := by
  unfold getProof findProofIndex
  simp only
  by_cases hmem : hash ∈ buildHashList minHeight maxHeight db
  · rw [if_pos hmem]
    have hnot : ¬ ((List.indexOf hash (buildHashList minHeight maxHeight db) : Int) < 0) := by
      simp
    rw [if_neg hnot]
    simp [getProofLoop_ne_nil, hmem]
  · rw [if_neg hmem]
    norm_num [hmem]

/-- Claim C3, evaluated at the failing input: placed directly after a
record the amount filter rejects, a perfectly valid coin record is never
considered — the scan of [entryRejected, entryGood] yields nothing, while
the scan of [entryGood] alone yields its item. The rejected record's
continue statement runs the for-loop increment on top of the explicit
cursor advance, dropping the following record unexamined. -/
theorem utxoScan_drops_record_after_rejected :
    scannedItems minUtxoBlockHeight maxUtxoBlockHeight [entryRejected, entryGood] = [] ∧
      scannedItems minUtxoBlockHeight maxUtxoBlockHeight [entryGood] = [⟨2, coinsGood⟩] := by
  constructor
  · decide
  · decide

set_option maxRecDepth 10000 in
/-- Witness for C8 at a concrete input: the leaf of the passing record is
in the snapshot list and the existential conclusion holds for it. -/
theorem buildHashList_filters_witness :
    checkedComputeHashTxOut 2 ⟨5, [7], false⟩ ∈
        buildHashList minUtxoBlockHeight maxUtxoBlockHeight [entryGood] ∧
      ∃ item ∈ scannedItems minUtxoBlockHeight maxUtxoBlockHeight [entryGood],
        0 < getUnspentAmount item.coins ∧ minUtxoBlockHeight ≤ item.coins.nHeight ∧
          item.coins.nHeight ≤ maxUtxoBlockHeight ∧
            checkedComputeHashTxOut 2 ⟨5, [7], false⟩ ∈ itemLeaves item :=
  ⟨by decide,
    buildHashList_filters minUtxoBlockHeight maxUtxoBlockHeight [entryGood] _ (by decide)⟩

set_option maxRecDepth 10000 in
/-- Witness for C10 at a concrete input: the collected leaf of the
passing record is non-null. -/
theorem buildHashList_no_sentinel_witness :
    checkedComputeHashTxOut 2 ⟨5, [7], false⟩ ∈
        buildHashList minUtxoBlockHeight maxUtxoBlockHeight [entryGood] ∧
      checkedComputeHashTxOut 2 ⟨5, [7], false⟩ ≠ 0 :=
  ⟨by decide,
    buildHashList_no_sentinel minUtxoBlockHeight maxUtxoBlockHeight [entryGood] _ (by decide)⟩

/-- Counterexample to claim C2 as stated: with a signer that fails on
every output, the claim batch does not omit the output — it still
contains it, with an empty authorization script, and the returned value
is the bare item list, carrying no count of omissions. -/
theorem getUnlockItems_failed_sign_not_omitted :
    failingSigner 7 0 = none ∧
      getUnlockItems failingSigner demoLookup demoWallet =
        [{ txid := 7, out := 0, scriptPubKey := [170], amount := 5, redeemScript := [] }] :=
  ⟨rfl, rfl⟩

/-- Claim C2 (amended): a wallet output for which the external signer
fails is still included in the claim batch, with an empty authorization
script; no exception propagates and no omission count is produced — the
caller receives only the item list. -/
theorem getUnlockItems_failed_sign_included (signer : Nat → Nat → Option (List Nat))
    (lookupCoins : Nat → Option CCoins) (wallet : List (Nat × CWalletTx))
    (wtxid : Nat) (wtx : CWalletTx) (coins : CCoins) (nOut : Nat) (txOut : CTxOut)
    (hw : (wtxid, wtx) ∈ wallet) (hc : lookupCoins wtxid = some coins)
    (ho : coins.vout[nOut]? = some txOut) (hnn : txOut.isNull = false)
    (hs : signer wtxid nOut = none) :
    ({ txid := wtxid, out := nOut, scriptPubKey := txOut.scriptPubKey,
       amount := txOut.nValue, redeemScript := [] } : UnlockItem) ∈
      getUnlockItems signer lookupCoins wallet := by
  unfold getUnlockItems
  rw [List.mem_flatMap]
  refine ⟨(wtxid, wtx), hw, ?_⟩
  simp only [hc]
  rw [List.mem_filterMap]
  refine ⟨(nOut, txOut), ?_, ?_⟩
  · rw [List.mk_mem_enum_iff_getElem?]
    exact ho
  · simp [hnn, signTxOut, hs]

/-- Witness for the amended C2 at a concrete input: the demo wallet's
only output, signed by the always-failing signer, appears in the batch
with an empty redeem script. -/
theorem getUnlockItems_failed_sign_included_witness :
    (7, (⟨[⟨5, [170], false⟩]⟩ : CWalletTx)) ∈ demoWallet ∧
      demoLookup 7 = some walletCoins ∧
      walletCoins.vout[0]? = some ⟨5, [170], false⟩ ∧
      (⟨5, [170], false⟩ : CTxOut).isNull = false ∧
      failingSigner 7 0 = none ∧
      ({ txid := 7, out := 0, scriptPubKey := [170], amount := 5,
         redeemScript := [] } : UnlockItem) ∈
        getUnlockItems failingSigner demoLookup demoWallet :=
  ⟨by decide, rfl, rfl, rfl, rfl,
    getUnlockItems_failed_sign_included failingSigner demoLookup demoWallet 7
      ⟨[⟨5, [170], false⟩]⟩ walletCoins 0 ⟨5, [170], false⟩ (by decide) rfl rfl rfl rfl⟩

end Synapseswap
